import Mathlib

/-!
Shallow embedding of the task-store engine (the `useTasks` hook): load-time
normalization of raw records and the mutation operations `addTask`,
`updateTask`, `deleteTask`, `undoDelete`, `clearHistory`.

Modelling conventions:
- A JS value that only matters through coercion/truthiness is a `JSVal`;
  `JSVal.nan` stands for `NaN`, `JSVal.str p` for a string whose numeric
  parse is `p` (`none` when the string is non-numeric).
- Timestamps (`Date.now()` millis / ISO strings) are `Int`; an ISO string is
  non-empty hence truthy, so an optional timestamp field is `Option Int`
  with `none` for `undefined` (falsy).
- `Partial<Task>` patches wrap each field in `Option`: `none` means the key
  is absent from the patch object, `some v` means present with value `v`
  (so the object spread `\x7b...t, ...patch\x7d` overwrites exactly the
  `some` fields).
- The non-deterministic inputs (`Date.now()`, `generateId()`) are explicit
  parameters.
-/

namespace TaskGlitch

/-- A loosely-typed JS value, as far as the normalization code observes it. -/
inductive JSVal where
  | undef : JSVal
  | null : JSVal
  | nan : JSVal
  | num : ℚ → JSVal
  | str : Option ℚ → JSVal
deriving DecidableEq, Repr

/-- JS `Number(x)` coercion: `undefined → NaN`, `null → 0`, numbers kept,
strings by their numeric parse (`NaN` when non-numeric). -/
def toNumber : JSVal → JSVal
  | .undef => .nan
  | .null => .num 0
  | .nan => .nan
  | .num q => .num q
  | .str (some q) => .num q
  | .str none => .nan

/-- JS nullish coalescing `a ?? b`: `b` only when `a` is `undefined` or
`null`. In particular `NaN ?? b = NaN`. -/
def jsNullish (a b : JSVal) : JSVal :=
  match a with
  | .undef => b
  | .null => b
  | v => v

/-- JS comparison `v >= 0` (on the values that can reach it here);
false for `NaN` and `undefined`. -/
def jsGeZero : JSVal → Bool
  | .num q => decide (0 ≤ q)
  | .null => true
  | .str (some q) => decide (0 ≤ q)
  | _ => false

/-- JS `a || b` on optional timestamps: an ISO string is truthy, `undefined`
is falsy. -/
def jsOrOpt (a b : Option ℤ) : Option ℤ :=
  match a with
  | some x => some x
  | none => b

/-- A canonical task as the store holds it. String-ish fields are `Option`
because normalization passes raw fields through unchecked (`t.id`, `t.title`,
`t.priority`, `t.status`, `t.notes` may be `undefined`). -/
structure Task where
  id : Option String
  title : Option String
  revenue : JSVal
  timeTaken : JSVal
  priority : Option String
  status : Option String
  notes : Option String
  createdAt : ℤ
  completedAt : Option ℤ
deriving DecidableEq, Repr

/-- A raw record from the external source, before normalization. -/
structure RawRecord where
  id : Option String
  title : Option String
  revenue : JSVal
  timeTaken : JSVal
  priority : Option String
  status : Option String
  notes : Option String
  createdAt : Option ℤ
  completedAt : Option ℤ
deriving DecidableEq, Repr

/-- One step of `normalizeTasks`'s `map` callback at array index `idx`:
`created = t.createdAt ? new Date(t.createdAt) : new Date(now - (idx+1)*24*3600*1000)`,
`completed = t.completedAt || (t.status === 'Done' ? created + day : undefined)`,
`revenue: Number(t.revenue) ?? 0`,
`timeTaken: Number(t.timeTaken) >= 0 ? Number(t.timeTaken) : 0`. -/
def normalizeOne (now : ℤ) (idx : ℕ) (t : RawRecord) : Task :=
  let created : ℤ := t.createdAt.getD (now - (idx + 1) * 24 * 3600 * 1000)
  let completed : Option ℤ :=
    jsOrOpt t.completedAt
      (if t.status = some "Done" then some (created + 24 * 3600 * 1000) else none)
  { id := t.id
    title := t.title
    revenue := jsNullish (toNumber t.revenue) (.num 0)
    timeTaken := if jsGeZero (toNumber t.timeTaken) then toNumber t.timeTaken else .num 0
    priority := t.priority
    status := t.status
    notes := t.notes
    createdAt := created
    completedAt := completed }

/-- Index-passing recursion implementing `input.map((t, idx) => ...)`. -/
def normalizeFrom (now : ℤ) : ℕ → List RawRecord → List Task
  | _, [] => []
  | idx, t :: rest => normalizeOne now idx t :: normalizeFrom now (idx + 1) rest

/-- The untyped argument of `normalizeTasks`: either a JS array of records or
any non-array value. -/
inductive JSInput where
  | arr : List RawRecord → JSInput
  | notArray : JSVal → JSInput

/-- `Array.isArray(input) ? input : []`. -/
def asArray : JSInput → List RawRecord
  | .arr l => l
  | .notArray _ => []

/-- `normalizeTasks(input)` with `now = Date.now()` captured once. -/
def normalizeTasks (input : JSInput) (now : ℤ) : List Task :=
  normalizeFrom now 0 (asArray input)

/-- A `Partial<Task>` patch: each field is `some v` exactly when the key is
present in the patch object. -/
structure Patch where
  id : Option (Option String) := none
  title : Option (Option String) := none
  revenue : Option JSVal := none
  timeTaken : Option JSVal := none
  priority : Option (Option String) := none
  status : Option (Option String) := none
  notes : Option (Option String) := none
  createdAt : Option ℤ := none
  completedAt : Option (Option ℤ) := none
deriving DecidableEq, Repr

/-- The object spread `\x7b...t, ...patch\x7d`: patch keys win. -/
def mergePatch (t : Task) (p : Patch) : Task :=
  { id := p.id.getD t.id
    title := p.title.getD t.title
    revenue := p.revenue.getD t.revenue
    timeTaken := p.timeTaken.getD t.timeTaken
    priority := p.priority.getD t.priority
    status := p.status.getD t.status
    notes := p.notes.getD t.notes
    createdAt := p.createdAt.getD t.createdAt
    completedAt := p.completedAt.getD t.completedAt }

/-- The store's mutable state: the canonical collection and the one-level
undo slot. -/
structure StoreState where
  tasks : List Task
  lastDeleted : Option Task
deriving DecidableEq, Repr

/-- The body of `updateTask`'s `map` callback: merge the patch onto the
matching task; if that transitions `status` into `'Done'` and the merged
record has no `completedAt` (`!merged.completedAt`), stamp `completedAt`
with the current time. -/
def updateOne (i : String) (p : Patch) (now : ℤ) (t : Task) : Task :=
  if t.id = some i then
    let merged := mergePatch t p
    if t.status ≠ some "Done" ∧ merged.status = some "Done" ∧ merged.completedAt = none
    then { merged with completedAt := some now }
    else merged
  else t

/-- `updateTask(id, patch)` with the current time explicit. -/
def updateTask (i : String) (p : Patch) (now : ℤ) (s : StoreState) : StoreState :=
  { s with tasks := s.tasks.map (updateOne i p now) }

/-- The `addTask` payload, `Omit<Task,'id'> & \x7b id?: string \x7d`. -/
structure Payload where
  id : Option String := none
  title : Option String := none
  revenue : JSVal := .num 0
  timeTaken : JSVal := .num 0
  priority : Option String := none
  status : Option String := none
  notes : Option String := none
  createdAt : ℤ := 0
  completedAt : Option ℤ := none
deriving DecidableEq, Repr

/-- The task built by `addTask`:
`\x7b ...task, id, timeTaken, createdAt, completedAt \x7d` where
`id = task.id ?? generateId()`, `createdAt = new Date().toISOString()` and
`completedAt = status === 'Done' ? createdAt : undefined`. The explicit keys
overwrite any `createdAt`/`completedAt` carried by the payload. -/
def newTask (p : Payload) (now : ℤ) (gen : String) : Task :=
  { id := some (p.id.getD gen)
    title := p.title
    revenue := p.revenue
    timeTaken := p.timeTaken
    priority := p.priority
    status := p.status
    notes := p.notes
    createdAt := now
    completedAt := if p.status = some "Done" then some now else none }

/-- `addTask(payload)` with the current time and the generated id explicit:
prepends the new task. -/
def addTask (p : Payload) (now : ℤ) (gen : String) (s : StoreState) : StoreState :=
  { s with tasks := newTask p now gen :: s.tasks }

/-- `deleteTask(id)`: `target = prev.find(t => t.id === id) || null;
setLastDeleted(target); return prev.filter(t => t.id !== id)`. Note that
`lastDeleted` is set to the `find` result unconditionally, even when no task
matches. -/
def deleteTask (i : String) (s : StoreState) : StoreState :=
  { tasks := s.tasks.filter (fun t => decide (t.id ≠ some i))
    lastDeleted := s.tasks.find? (fun t => decide (t.id = some i)) }

/-- `undoDelete()`: reinsert `lastDeleted` at the front and clear it; no-op
when nothing is pending. -/
def undoDelete (s : StoreState) : StoreState :=
  match s.lastDeleted with
  | none => s
  | some t => { tasks := t :: s.tasks, lastDeleted := none }

/-- `clearHistory()`. -/
def clearHistory (s : StoreState) : StoreState :=
  { s with lastDeleted := none }

/-- A concrete non-terminal task, for counterexamples and witnesses. -/
def taskA : Task :=
  { id := some "a", title := some "A", revenue := .num 1, timeTaken := .num 1
    priority := some "Low", status := some "Todo", notes := none
    createdAt := 0, completedAt := none }

/-- A second concrete task with a different id. -/
def taskB : Task :=
  { taskA with id := some "b", title := some "B" }

/-- A raw record carrying only a title (every other field absent). -/
def rawTitleOnly : RawRecord :=
  { id := none, title := some "X", revenue := .undef, timeTaken := .undef
    priority := none, status := none, notes := none
    createdAt := none, completedAt := none }

/-- A raw record with every field absent. -/
def rawEmpty : RawRecord :=
  { rawTitleOnly with title := none }

/-- A patch that only sets `status` to `'Done'`. -/
def patchDone : Patch :=
  { status := some (some "Done") }

/-- The already-completed but non-terminal task used against C4: `completedAt`
is set while `status` is `'Todo'`. -/
def taskStale : Task :=
  { taskA with completedAt := some 5 }

/-- Helper: normalization preserves the list length. -/
lemma normalizeFrom_length (now : ℤ) (k : ℕ) (l : List RawRecord) :
    (normalizeFrom now k l).length = l.length := by
  induction l generalizing k with
  | nil => rfl
  | cons a l ih => simp [normalizeFrom, ih]

/-- Helper: the element of the normalized list at position `i` is the
normalization of the raw record at position `i`, at running index `k + i`. -/
lemma normalizeFrom_get (now : ℤ) (k : ℕ) (l : List RawRecord) (i : ℕ)
    (h : i < l.length) :
    (normalizeFrom now k l).get ⟨i, by simpa [normalizeFrom_length] using h⟩
      = normalizeOne now (k + i) (l.get ⟨i, h⟩) := by
  induction l generalizing k i with
  | nil => cases h
  | cons a l ih =>
      cases i with
      | zero => rfl
      | succ i =>
          have h' : i < l.length := Nat.lt_of_succ_lt_succ h
          have := ih (k + 1) i h'
          simpa [normalizeFrom, Nat.add_assoc, Nat.add_comm 1 i] using this

/-- Helper: length of `normalizeTasks` on an array input. -/
lemma normalizeTasks_arr_length (l : List RawRecord) (now : ℤ) :
    (normalizeTasks (JSInput.arr l) now).length = l.length := by
  simp [normalizeTasks, asArray, normalizeFrom_length]

/-- Helper: synthesized `createdAt` for a record missing it. -/
lemma normalizeOne_createdAt_of_none (now : ℤ) (idx : ℕ) (t : RawRecord)
    (h : t.createdAt = none) :
    (normalizeOne now idx t).createdAt = now - (idx + 1) * (24 * 3600 * 1000) := by
  simp [normalizeOne, h]
  ring

/-- Helper: `updateTask`'s map leaves a list unchanged when no element's id
matches. -/
lemma map_updateOne_of_no_match (i : String) (p : Patch) (now : ℤ)
    (l : List Task) (h : ∀ t ∈ l, t.id ≠ some i) :
    l.map (updateOne i p now) = l := by
  induction l with
  | nil => rfl
  | cons a l ih =>
      have ha : a.id ≠ some i := h a (by simp)
      have hl : l.map (updateOne i p now) = l :=
        ih (fun t ht => h t (by simp [ht]))
      simp [updateOne, ha, hl]

/-- C1: the spec claims `deleteTask` with an unmatched id is a full no-op,
keeping any previously held `lastDeleted`. Evaluating the code at a state
holding a pending undo (`lastDeleted = some taskB`) and deleting an id that
matches nothing: the collection is unchanged but `lastDeleted` is cleared to
`none` (the code runs `setLastDeleted(prev.find(...) || null)`
unconditionally), contradicting the claim. -/
theorem c1_deleteTask_unknown_id_clears_lastDeleted :
    (deleteTask "missing" { tasks := [taskA], lastDeleted := some taskB }).tasks
        = [taskA]
    ∧ (deleteTask "missing" { tasks := [taskA], lastDeleted := some taskB }).lastDeleted
        = none
    ∧ some taskB ≠ (none : Option Task) := by
  refine ⟨?_, ?_, ?_⟩ <;> decide

/-- C2: normalizing `[\x7btitle: "X"\x7d]` (all other fields absent) at
`now = 0`. The code yields `timeTaken = 0`, a synthesized `createdAt`
(`now - 1 day`) and no `completedAt` as claimed, but `revenue` becomes `NaN`,
not `0`: `Number(undefined)` is `NaN` and `NaN ?? 0` keeps `NaN` because
`NaN` is not nullish. -/
theorem c2_normalize_title_only_revenue_nan :
    normalizeTasks (JSInput.arr [rawTitleOnly]) 0 =
      [{ id := none, title := some "X", revenue := JSVal.nan
         timeTaken := JSVal.num 0, priority := none, status := none
         notes := none, createdAt := -86400000, completedAt := none }]
    ∧ JSVal.nan ≠ JSVal.num 0 := by
  refine ⟨?_, ?_⟩ <;> decide

/-- C3, counterexample: normalizing two records that both lack `createdAt`
(at `now = 0`) synthesizes `[-86400000, -172800000]`: the earlier-indexed
record receives the larger (later) timestamp, so it does not appear to have
been created earlier than the later-indexed one, contrary to the claim. -/
theorem c3_earlier_index_not_created_earlier :
    rawEmpty.createdAt = none
    ∧ (normalizeTasks (JSInput.arr [rawEmpty, rawEmpty]) 0).map Task.createdAt
        = [-86400000, -172800000]
    ∧ ¬ ((-86400000 : ℤ) < -172800000) := by
  refine ⟨rfl, ?_, ?_⟩ <;> decide

/-- C3, amended: for records missing `createdAt`, the synthesized timestamp
`now - (idx+1)·24h` is strictly decreasing in the original array index and
anchored to the normalization time, so earlier-indexed raw records appear to
have been created later (not earlier) than later-indexed ones. -/
theorem c3_synthesized_createdAt_strictly_decreasing (l : List RawRecord)
    (now : ℤ) (i j : ℕ) (hij : i < j) (hj : j < l.length)
    (hri : (l.get ⟨i, lt_trans hij hj⟩).createdAt = none)
    (hrj : (l.get ⟨j, hj⟩).createdAt = none) :
    ((normalizeTasks (JSInput.arr l) now).get
        ⟨j, by simpa [normalizeTasks_arr_length] using hj⟩).createdAt
      < ((normalizeTasks (JSInput.arr l) now).get
        ⟨i, by simpa [normalizeTasks_arr_length] using lt_trans hij hj⟩).createdAt
    ∧ ((normalizeTasks (JSInput.arr l) now).get
        ⟨i, by simpa [normalizeTasks_arr_length] using lt_trans hij hj⟩).createdAt
      = now - ((i : ℤ) + 1) * (24 * 3600 * 1000) := by
  have hgi := normalizeFrom_get now 0 l i (lt_trans hij hj)
  have hgj := normalizeFrom_get now 0 l j hj
  have hci : ((normalizeTasks (JSInput.arr l) now).get
      ⟨i, by simpa [normalizeTasks_arr_length] using lt_trans hij hj⟩).createdAt
      = now - ((i : ℤ) + 1) * (24 * 3600 * 1000) := by
    show ((normalizeFrom now 0 l).get
      ⟨i, by simpa [normalizeFrom_length] using lt_trans hij hj⟩).createdAt = _
    rw [hgi, Nat.zero_add, normalizeOne_createdAt_of_none now i _ hri]
  have hcj : ((normalizeTasks (JSInput.arr l) now).get
      ⟨j, by simpa [normalizeTasks_arr_length] using hj⟩).createdAt
      = now - ((j : ℤ) + 1) * (24 * 3600 * 1000) := by
    show ((normalizeFrom now 0 l).get
      ⟨j, by simpa [normalizeFrom_length] using hj⟩).createdAt = _
    rw [hgj, Nat.zero_add, normalizeOne_createdAt_of_none now j _ hrj]
  refine ⟨?_, hci⟩
  rw [hci, hcj]
  have hij' : (i : ℤ) < (j : ℤ) := by exact_mod_cast hij
  nlinarith

/-- Witness for the amended C3 at a concrete two-record input. -/
theorem c3_synthesized_createdAt_strictly_decreasing_witness :
    ((normalizeTasks (JSInput.arr [rawEmpty, rawEmpty]) 0).get
        ⟨1, by simp [normalizeTasks_arr_length]⟩).createdAt
      < ((normalizeTasks (JSInput.arr [rawEmpty, rawEmpty]) 0).get
        ⟨0, by simp [normalizeTasks_arr_length]⟩).createdAt
    ∧ ((normalizeTasks (JSInput.arr [rawEmpty, rawEmpty]) 0).get
        ⟨0, by simp [normalizeTasks_arr_length]⟩).createdAt
      = 0 - ((0 : ℤ) + 1) * (24 * 3600 * 1000) :=
  c3_synthesized_createdAt_strictly_decreasing [rawEmpty, rawEmpty] 0 0 1
    (by decide) (by decide) rfl rfl

/-- C4, counterexample: a task whose `completedAt` is already set (`some 5`)
while its status is still `'Todo'`. The patch `\x7bstatus: 'Done'\x7d`
transitions it from non-terminal to terminal and supplies no `completedAt`,
yet `updateTask` at current time `10` leaves `completedAt = some 5`, not the
current time (`!merged.completedAt` guards the stamp), refuting the claim as
stated. -/
theorem c4_already_completed_not_restamped :
    taskStale.status ≠ some "Done"
    ∧ (mergePatch taskStale patchDone).status = some "Done"
    ∧ patchDone.completedAt = none
    ∧ (updateTask "a" patchDone 10
        { tasks := [taskStale], lastDeleted := none }).tasks.map Task.completedAt
      = [some 5]
    ∧ some (5 : ℤ) ≠ some (10 : ℤ) := by
  refine ⟨?_, ?_, ?_, ?_, ?_⟩ <;> decide

/-- C4, amended: for a task with no `completedAt` yet, a patch that
transitions its status from non-terminal to terminal (`'Done'`) without
supplying `completedAt` makes `updateTask` stamp `completedAt` with the
current time, which is not earlier than the task's `createdAt` whenever the
update happens no earlier than creation; reapplying the same update (task now
terminal) leaves `completedAt` unchanged. -/
theorem c4_transition_sets_completedAt (i : String) (p : Patch)
    (now now2 : ℤ) (t : Task) (h1 : t.id = some i)
    (h2 : t.status ≠ some "Done") (h3 : (mergePatch t p).status = some "Done")
    (h4 : p.completedAt = none) (h5 : t.completedAt = none)
    (h6 : t.createdAt ≤ now) :
    (updateOne i p now t).completedAt = some now
    ∧ t.createdAt ≤ now
    ∧ (updateOne i p now2 (updateOne i p now t)).completedAt = some now
    ∧ (∀ s : StoreState,
        (updateTask i p now s).tasks = s.tasks.map (updateOne i p now)) := by
  have hm : (mergePatch t p).completedAt = none := by
    simp [mergePatch, h4, h5]
  have hstep : updateOne i p now t = { mergePatch t p with completedAt := some now } := by
    simp [updateOne, h1, h2, h3, hm]
  have hc1 : (updateOne i p now t).completedAt = some now := by rw [hstep]
  have hst : (updateOne i p now t).status = some "Done" := by rw [hstep]; exact h3
  have hc1' := hc1
  have hst' := hst
  obtain ⟨t', ht'⟩ : ∃ u, updateOne i p now t = u := ⟨_, rfl⟩
  rw [ht'] at hc1' hst'
  refine ⟨hc1, h6, ?_, fun s => rfl⟩
  rw [ht']
  by_cases hid : t'.id = some i
  · simp [updateOne, hid, hst', mergePatch, h4, hc1']
  · simp [updateOne, hid, hc1']

/-- Witness for the amended C4 at a concrete task and patch. -/
theorem c4_transition_sets_completedAt_witness :
    (updateOne "a" patchDone 10 taskA).completedAt = some 10
    ∧ taskA.createdAt ≤ 10
    ∧ (updateOne "a" patchDone 20 (updateOne "a" patchDone 10 taskA)).completedAt
        = some 10
    ∧ (∀ s : StoreState,
        (updateTask "a" patchDone 10 s).tasks
          = s.tasks.map (updateOne "a" patchDone 10)) :=
  c4_transition_sets_completedAt "a" patchDone 10 20 taskA rfl (by decide)
    (by decide) rfl rfl (by decide)

/-- C5: `completedAt` is monotonic across every store mutation: the engine
itself never clears or alters a set `completedAt` (its only write happens on
the transition into `'Done'` when `completedAt` is still unset), even when
status changes away from terminal. For `updateTask` this is stated for
patches that do not themselves carry a `completedAt` key (a patch-supplied
value is the caller's write, which the spec's merge semantics allow);
`addTask`, `deleteTask`, `undoDelete` and `clearHistory` keep every retained
task identical, hence its `completedAt`. -/
theorem c5_completedAt_monotonic (i : String) (p : Patch) (now : ℤ)
    (hp : p.completedAt = none) :
    (∀ t c, t.completedAt = some c → (updateOne i p now t).completedAt = some c)
    ∧ (∀ s : StoreState,
        (updateTask i p now s).tasks = s.tasks.map (updateOne i p now))
    ∧ (∀ (j : String) (s : StoreState) t, t ∈ (deleteTask j s).tasks → t ∈ s.tasks)
    ∧ (∀ (s : StoreState) t, t ∈ (undoDelete s).tasks
        → t ∈ s.tasks ∨ s.lastDeleted = some t)
    ∧ (∀ s : StoreState, (clearHistory s).tasks = s.tasks)
    ∧ (∀ (pl : Payload) (g : String) (s : StoreState) t,
        t ∈ s.tasks → t ∈ (addTask pl now g s).tasks) := by
  refine ⟨?_, fun s => rfl, ?_, ?_, fun s => rfl, ?_⟩
  · intro t c hc
    by_cases hid : t.id = some i
    · have hm : (mergePatch t p).completedAt = some c := by
        simp [mergePatch, hp, hc]
      have : ¬ (t.status ≠ some "Done" ∧ (mergePatch t p).status = some "Done"
          ∧ (mergePatch t p).completedAt = none) := by
        intro hcontra
        rw [hm] at hcontra
        exact Option.noConfusion hcontra.2.2
      simp only [updateOne, if_pos hid, if_neg this]
      exact hm
    · simp [updateOne, hid, hc]
  · intro j s t ht
    exact (List.mem_filter.1 ht).1
  · intro s t ht
    cases hl : s.lastDeleted with
    | none => exact Or.inl (by simpa [undoDelete, hl] using ht)
    | some d =>
        have ht' : t = d ∨ t ∈ s.tasks := by
          simpa [undoDelete, hl] using ht
        rcases ht' with rfl | hmem
        · exact Or.inr rfl
        · exact Or.inl hmem
  · intro pl g s t ht
    exact List.mem_cons_of_mem _ ht

/-- Witness for C5: the status-only patch `\x7bstatus: 'Done'\x7d` leaves the
already-set `completedAt` of `taskStale` untouched. -/
theorem c5_completedAt_monotonic_witness :
    (updateOne "a" patchDone 10 taskStale).completedAt = some 5 :=
  (c5_completedAt_monotonic "a" patchDone 10 rfl).1 taskStale 5 rfl

/-- C6: `addTask` then `deleteTask` of the new task's id then `undoDelete`
puts a task equal in all fields to the added one back at the front of the
collection, and `lastDeleted` is null afterward. -/
theorem c6_add_delete_undo_roundtrip (p : Payload) (now : ℤ) (gen : String)
    (s : StoreState) :
    (undoDelete (deleteTask (p.id.getD gen) (addTask p now gen s))).tasks.head?
        = some (newTask p now gen)
    ∧ newTask p now gen
        ∈ (undoDelete (deleteTask (p.id.getD gen) (addTask p now gen s))).tasks
    ∧ (undoDelete (deleteTask (p.id.getD gen) (addTask p now gen s))).lastDeleted
        = none := by
  have hfind : (addTask p now gen s).tasks.find?
      (fun t => decide (t.id = some (p.id.getD gen))) = some (newTask p now gen) := by
    apply List.find?_cons_of_pos
    simp [newTask]
  have hdel : deleteTask (p.id.getD gen) (addTask p now gen s)
      = { tasks := (addTask p now gen s).tasks.filter
            (fun t => decide (t.id ≠ some (p.id.getD gen)))
          lastDeleted := some (newTask p now gen) } := by
    simp [deleteTask, hfind]
  rw [hdel]
  simp [undoDelete]

/-- Helper: in a collection with pairwise-distinct ids, `find?` on a member's
id returns exactly that member. -/
lemma find?_id_eq_of_nodup (l : List Task) (hN : (l.map Task.id).Nodup)
    (t : Task) (ht : t ∈ l) (i : String) (hid : t.id = some i) :
    l.find? (fun u => decide (u.id = some i)) = some t := by
  induction l with
  | nil => cases ht
  | cons a l ih =>
      have hN2 : (a.id :: l.map Task.id).Nodup := by simpa using hN
      rcases List.mem_cons.1 ht with rfl | hmem
      · exact List.find?_cons_of_pos _ (by simp [hid])
      · have hna : a.id ∉ l.map Task.id := (List.nodup_cons.1 hN2).1
        have ha : ¬ (decide (a.id = some i) = true) := by
          simp only [decide_eq_true_eq]
          intro h
          apply hna
          rw [h, ← hid]
          exact List.mem_map_of_mem Task.id hmem
        have hstep : List.find? (fun u => decide (u.id = some i)) (a :: l)
            = List.find? (fun u => decide (u.id = some i)) l :=
          List.find?_cons_of_neg _ ha
        rw [hstep]
        exact ih (List.nodup_cons.1 hN2).2 hmem

/-- C7: with distinct tasks A and B in a collection of pairwise-distinct ids,
deleting A, then B, then calling `undoDelete` restores only B: B is back in
the collection, A is gone, and no undo history remains (`lastDeleted` is
null), so A is unrecoverable — only one level of undo history is kept. -/
theorem c7_single_level_undo (s : StoreState) (A B : Task) (a b : String)
    (hN : (s.tasks.map Task.id).Nodup) (hA : A ∈ s.tasks) (hB : B ∈ s.tasks)
    (hAB : A ≠ B) (ha : A.id = some a) (hb : B.id = some b) :
    B ∈ (undoDelete (deleteTask b (deleteTask a s))).tasks
    ∧ A ∉ (undoDelete (deleteTask b (deleteTask a s))).tasks
    ∧ (undoDelete (deleteTask b (deleteTask a s))).lastDeleted = none := by
  have hab : (some a : Option String) ≠ some b := by
    intro h
    exact hAB (List.inj_on_of_nodup_map hN hA hB (by rw [ha, hb, h]))
  have hB1 : B ∈ (deleteTask a s).tasks := by
    refine List.mem_filter.2 ⟨hB, ?_⟩
    simp only [decide_eq_true_eq, hb]
    exact fun h => hab h.symm
  have hN1 : ((deleteTask a s).tasks.map Task.id).Nodup := by
    have hsub : List.Sublist (deleteTask a s).tasks s.tasks :=
      List.filter_sublist s.tasks
    exact hN.sublist (hsub.map Task.id)
  have hfind2 : (deleteTask a s).tasks.find? (fun u => decide (u.id = some b))
      = some B := find?_id_eq_of_nodup _ hN1 B hB1 b hb
  have key : undoDelete (deleteTask b (deleteTask a s))
      = { tasks := B :: (deleteTask a s).tasks.filter
            (fun t => decide (t.id ≠ some b))
          lastDeleted := none } := by
    show undoDelete
        { tasks := (deleteTask a s).tasks.filter (fun t => decide (t.id ≠ some b))
          lastDeleted := (deleteTask a s).tasks.find?
            (fun u => decide (u.id = some b)) } = _
    rw [hfind2]
    rfl
  rw [key]
  refine ⟨List.mem_cons_self _ _, ?_, rfl⟩
  intro hmemA
  rcases List.mem_cons.1 hmemA with h | h
  · exact hAB h
  · have hA1 : A ∈ (deleteTask a s).tasks := (List.mem_filter.1 h).1
    have hA2 : A ∈ s.tasks.filter (fun t => decide (t.id ≠ some a)) := hA1
    have := (List.mem_filter.1 hA2).2
    rw [decide_eq_true_eq] at this
    exact this ha

/-- Witness for C7 on a concrete two-task store. -/
theorem c7_single_level_undo_witness :
    taskB ∈ (undoDelete (deleteTask "b" (deleteTask "a"
        { tasks := [taskA, taskB], lastDeleted := none }))).tasks
    ∧ taskA ∉ (undoDelete (deleteTask "b" (deleteTask "a"
        { tasks := [taskA, taskB], lastDeleted := none }))).tasks
    ∧ (undoDelete (deleteTask "b" (deleteTask "a"
        { tasks := [taskA, taskB], lastDeleted := none }))).lastDeleted = none :=
  c7_single_level_undo { tasks := [taskA, taskB], lastDeleted := none }
    taskA taskB "a" "b" (by decide) (by decide) (by decide) (by decide) rfl rfl

/-- C8: `updateTask` with an id matching no task leaves the state
content-equal to before (every task unchanged, `lastDeleted` unchanged) and
raises no error (it is a total function). -/
theorem c8_updateTask_unknown_id_noop (i : String) (p : Patch) (now : ℤ)
    (s : StoreState) (h : ∀ t ∈ s.tasks, t.id ≠ some i) :
    updateTask i p now s = s := by
  cases s with
  | mk tasks lastDeleted =>
      simp only [updateTask]
      exact congrArg (fun l => StoreState.mk l lastDeleted)
        (map_updateOne_of_no_match i p now tasks h)

/-- Witness for C8 at a concrete state and id. -/
theorem c8_updateTask_unknown_id_noop_witness :
    updateTask "zzz" {} 7 { tasks := [taskA, taskB], lastDeleted := none }
      = { tasks := [taskA, taskB], lastDeleted := none } :=
  c8_updateTask_unknown_id_noop "zzz" {} 7
    { tasks := [taskA, taskB], lastDeleted := none } (by decide)

/-- C9: `normalizeTasks` on any non-array input returns the empty task list
rather than failing (`Array.isArray(input) ? input : []`). -/
theorem c9_normalize_non_array_empty (v : JSVal) (now : ℤ) :
    normalizeTasks (JSInput.notArray v) now = [] := rfl

/-- C10: the task stored by `addTask` has `createdAt` equal to the
operation's current time, `completedAt` equal to that same time exactly when
the payload status is `'Done'` (absent otherwise), and any
`createdAt`/`completedAt` carried by the payload are ignored and
overwritten. -/
theorem c10_addTask_timestamps (p : Payload) (now : ℤ) (gen : String)
    (s : StoreState) :
    (addTask p now gen s).tasks.head? = some (newTask p now gen)
    ∧ (newTask p now gen).createdAt = now
    ∧ (newTask p now gen).completedAt
        = (if p.status = some "Done" then some now else none)
    ∧ (∀ c co, newTask { p with createdAt := c, completedAt := co } now gen
        = newTask p now gen) :=
  ⟨rfl, rfl, rfl, fun _ _ => rfl⟩

end TaskGlitch
